import Mathlib

/-!
Verification of the reconciliation-and-execution engine of the
GithubClonerAgent repository (source: clone_repos.py).

Strings of the Python source are modelled as lists of characters
(ASCII model of Python str operations).  Every external process
invocation (git, gh) is modelled by an explicit result record that the
embedded functions receive as input, mirroring the "opaque subprocess"
design of the program.
-/

namespace GithubClonerAgent

/-- Python strings, modelled as lists of characters. -/
abbrev Str := List Char

/-- Whitespace characters stripped by Python str.strip() (ASCII model). -/
def isSpaceChar (c : Char) : Bool :=
  c = ' ' || c = '\t' || c = '\n' || c = '\r' || c = '\x0b' || c = '\x0c'

/-- Models Python str.strip(): drop whitespace from both ends. -/
def pyStrip (s : Str) : Str :=
  ((s.dropWhile isSpaceChar).reverse.dropWhile isSpaceChar).reverse

/-- Models Python s.split("\n")[0]: the text before the first newline. -/
def firstLineOf (s : Str) : Str :=
  s.takeWhile (fun c => c ≠ '\n')

/-- Models Python's `a or b` on strings: b if a is empty, else a. -/
def orElseStr (a b : Str) : Str :=
  if a = [] then b else a

/-- Models both os.path.basename and s.split("/")[-1]: the characters
after the last slash (the whole string when there is no slash). -/
def lastComponent (s : Str) : Str :=
  (s.reverse.takeWhile (fun c => c ≠ '/')).reverse

/-- Models os.path.join with a "/" separator. -/
def joinPath (a b : Str) : Str := a ++ '/' :: b

/-- Result of one external process invocation (subprocess.run). -/
structure ProcResult where
  returncode : Int
  stdout : Str
  stderr : Str
deriving DecidableEq

/-- The default error text "pull failed" of _pull_one. -/
def pullFailedMsg : Str := "pull failed".toList

/-- Embeds _pull_one (clone_repos.py lines 185-195): run git pull in one
repo; on non-zero exit the error message is the first line of the
stripped stderr (falling back to stdout, then "pull failed"),
truncated to 200 characters. -/
def pull_one (path : Str) (r : ProcResult) : Str × Bool × Str :=
  let name := lastComponent path
  if r.returncode = 0 then (name, true, [])
  else (name, false,
    (firstLineOf (pyStrip (orElseStr r.stderr (orElseStr r.stdout pullFailedMsg)))).take 200)

/-- The message computed by _pull_one for a failed pull. -/
def pullErrMsg (r : ProcResult) : Str :=
  (firstLineOf (pyStrip (orElseStr r.stderr (orElseStr r.stdout pullFailedMsg)))).take 200

/-- Embeds the sequential pull loop of sync_repos (lines 843-851) and
pull_all_repos (lines 269-277): every path is processed, successes are
appended to pulled_names and failures to pull_failed, in order. -/
def pullLoop (world : Str → ProcResult) : List Str → List Str × List (Str × Str)
  | [] => ([], [])
  | p :: rest =>
    let out := pull_one p (world p)
    let acc := pullLoop world rest
    if out.2.1 then (out.1 :: acc.1, acc.2) else (acc.1, (out.1, out.2.2) :: acc.2)

example : pull_one "d/r2".toList ⟨1, [], "conflict".toList⟩
    = ("r2".toList, false, "conflict".toList) := by decide

example : pull_one "d/r1".toList ⟨0, [], []⟩ = ("r1".toList, true, []) := by decide

/-- The filesystem as seen by the program: which directories exist and
which entries os.listdir reports under the destination directory. -/
structure FS where
  dirs : List Str
  entries : List Str
deriving DecidableEq

/-- Models os.path.isdir against the filesystem state. -/
def FS.isDirB (fs : FS) (p : Str) : Bool := decide (p ∈ fs.dirs)

/-- Models the creation of a directory (by a successful git clone). -/
def FS.addDir (fs : FS) (p : Str) : FS := ⟨p :: fs.dirs, fs.entries⟩

/-- The ".git" metadata directory name. -/
def dotGit : Str := ".git".toList

/-- The condition of sync_repos line 818: a local working copy exists at
path (the directory and its .git subdirectory both exist). -/
def isWorkingCopy (fs : FS) (path : Str) : Bool :=
  fs.isDirB path && fs.isDirB (joinPath path dotGit)

/-- One remote repository as returned by the Remote Repository Lister:
full name owner/name, https url, ssh url. -/
structure Repo where
  name : Str
  url : Str
  sshUrl : Str
deriving DecidableEq

/-- The local path a repo reconciles against: dest joined with the short
name (sync_repos lines 816-817). -/
def repoLocalPath (dest : Str) (r : Repo) : Str :=
  joinPath dest (lastComponent r.name)

/-- Embeds the Reconciler (sync_repos lines 813-821): partition the
remote list into to_clone (repo records) and to_pull (local paths),
preserving the input order of each side. -/
def reconcile (fs : FS) (dest : Str) : List Repo → List Repo × List Str
  | [] => ([], [])
  | r :: rest =>
    let acc := reconcile fs dest rest
    if isWorkingCopy fs (repoLocalPath dest r)
    then (acc.1, repoLocalPath dest r :: acc.2)
    else (r :: acc.1, acc.2)

theorem takeWhile_append_cons (p : Char → Bool) (l₁ l₂ : Str) (x : Char)
    (h1 : ∀ c ∈ l₁, p c = true) (hx : p x = false) :
    (l₁ ++ x :: l₂).takeWhile p = l₁ := by
  induction l₁ with
  | nil => simp [List.takeWhile_cons, hx]
  | cons a t ih =>
    have ha : p a = true := h1 a (by simp)
    simp [List.takeWhile_cons, ha, ih (fun c hc => h1 c (by simp [hc]))]

theorem mem_takeWhile_pred (p : Char → Bool) (l : Str) (c : Char)
    (h : c ∈ l.takeWhile p) : p c = true := by
  induction l with
  | nil => simp [List.takeWhile] at h
  | cons a t ih =>
    rw [List.takeWhile_cons] at h
    by_cases hp : p a = true
    · simp [hp] at h
      rcases h with h | h
      · exact h ▸ hp
      · exact ih h
    · simp [Bool.not_eq_true] at hp
      simp [hp] at h

theorem lastComponent_no_slash (s : Str) : ∀ c ∈ lastComponent s, c ≠ '/' := by
  intro c hc
  have := mem_takeWhile_pred (fun c => c ≠ '/') s.reverse c (by
    simpa [lastComponent] using hc)
  simpa using this

theorem lastComponent_joinPath (a b : Str) (h : ∀ c ∈ b, c ≠ '/') :
    lastComponent (joinPath a b) = b := by
  unfold lastComponent joinPath
  have : (a ++ '/' :: b).reverse = b.reverse ++ '/' :: a.reverse := by
    simp
  rw [this, takeWhile_append_cons _ _ _ _ (fun c hc => by
      simpa using h c (by simpa using hc)) (by simp), List.reverse_reverse]

theorem lastComponent_repoLocalPath (dest : Str) (r : Repo) :
    lastComponent (repoLocalPath dest r) = lastComponent r.name := by
  unfold repoLocalPath
  exact lastComponent_joinPath dest (lastComponent r.name) (lastComponent_no_slash r.name)

theorem reconcile_cons_pos (fs : FS) (dest : Str) (a : Repo) (rest : List Repo)
    (h : isWorkingCopy fs (repoLocalPath dest a) = true) :
    reconcile fs dest (a :: rest)
      = ((reconcile fs dest rest).1, repoLocalPath dest a :: (reconcile fs dest rest).2) := by
  simp [reconcile, h]

theorem reconcile_cons_neg (fs : FS) (dest : Str) (a : Repo) (rest : List Repo)
    (h : isWorkingCopy fs (repoLocalPath dest a) = false) :
    reconcile fs dest (a :: rest)
      = (a :: (reconcile fs dest rest).1, (reconcile fs dest rest).2) := by
  simp [reconcile, h]

theorem mem_reconcile_toClone (fs : FS) (dest : Str) (repos : List Repo) (r : Repo) :
    r ∈ (reconcile fs dest repos).1 ↔
      r ∈ repos ∧ isWorkingCopy fs (repoLocalPath dest r) = false := by
  induction repos with
  | nil => simp [reconcile]
  | cons a rest ih =>
    by_cases h : isWorkingCopy fs (repoLocalPath dest a) = true
    · rw [reconcile_cons_pos fs dest a rest h]
      simp only [List.mem_cons, ih]
      constructor
      · rintro ⟨hr, hw⟩; exact ⟨Or.inr hr, hw⟩
      · rintro ⟨hr | hr, hw⟩
        · rw [hr] at hw
          rw [h] at hw
          exact absurd hw (by simp)
        · exact ⟨hr, hw⟩
    · rw [Bool.not_eq_true] at h
      rw [reconcile_cons_neg fs dest a rest h]
      simp only [List.mem_cons, ih]
      constructor
      · rintro (rfl | ⟨hr, hw⟩)
        · exact ⟨Or.inl rfl, h⟩
        · exact ⟨Or.inr hr, hw⟩
      · rintro ⟨rfl | hr, hw⟩
        · exact Or.inl rfl
        · exact Or.inr ⟨hr, hw⟩

theorem mem_reconcile_toPull (fs : FS) (dest : Str) (repos : List Repo) (p : Str) :
    p ∈ (reconcile fs dest repos).2 ↔
      ∃ r, r ∈ repos ∧ isWorkingCopy fs (repoLocalPath dest r) = true
        ∧ p = repoLocalPath dest r := by
  induction repos with
  | nil => simp [reconcile]
  | cons a rest ih =>
    by_cases h : isWorkingCopy fs (repoLocalPath dest a) = true
    · rw [reconcile_cons_pos fs dest a rest h]
      simp only [List.mem_cons, ih]
      constructor
      · rintro (rfl | ⟨r, hr, hw, rfl⟩)
        · exact ⟨a, Or.inl rfl, h, rfl⟩
        · exact ⟨r, Or.inr hr, hw, rfl⟩
      · rintro ⟨r, rfl | hr, hw, rfl⟩
        · exact Or.inl rfl
        · exact Or.inr ⟨r, hr, hw, rfl⟩
    · rw [Bool.not_eq_true] at h
      rw [reconcile_cons_neg fs dest a rest h]
      simp only [ih]
      constructor
      · rintro ⟨r, hr, hw, rfl⟩
        exact ⟨r, List.mem_cons_of_mem a hr, hw, rfl⟩
      · rintro ⟨r, hr, hw, rfl⟩
        rcases List.mem_cons.mp hr with rfl | hr'
        · rw [h] at hw
          exact absurd hw (by simp)
        · exact ⟨r, hr', hw, rfl⟩

theorem reconcile_names_perm (fs : FS) (dest : Str) (repos : List Repo) :
    ((reconcile fs dest repos).1.map (fun r => lastComponent r.name)
      ++ (reconcile fs dest repos).2.map lastComponent).Perm
      (repos.map (fun r => lastComponent r.name)) := by
  induction repos with
  | nil => simp [reconcile]
  | cons a rest ih =>
    by_cases h : isWorkingCopy fs (repoLocalPath dest a) = true
    · rw [reconcile_cons_pos fs dest a rest h]
      simp only [List.map_cons]
      rw [lastComponent_repoLocalPath]
      exact List.Perm.trans List.perm_middle (List.Perm.cons _ ih)
    · rw [Bool.not_eq_true] at h
      rw [reconcile_cons_neg fs dest a rest h]
      simp only [List.map_cons, List.cons_append]
      exact List.Perm.cons _ ih

/-- C2: for every remote list and fixed local directory state, the
Reconciler places each listed repository in exactly one of to_clone or
to_pull (the sizes add up to the input size), the combined multiset of
short names equals the multiset of short names of the input, and no
short name appears on both sides. -/
theorem reconciler_partitions (fs : FS) (dest : Str) (repos : List Repo) :
    (reconcile fs dest repos).1.length + (reconcile fs dest repos).2.length = repos.length
    ∧ (((reconcile fs dest repos).1.map (fun r => lastComponent r.name)
          ++ (reconcile fs dest repos).2.map lastComponent : List Str) : Multiset Str)
        = ((repos.map (fun r => lastComponent r.name) : List Str) : Multiset Str)
    ∧ ∀ n : Str, ¬ (n ∈ (reconcile fs dest repos).1.map (fun r => lastComponent r.name)
        ∧ n ∈ (reconcile fs dest repos).2.map lastComponent) := by
  refine ⟨?_, ?_, ?_⟩
  · have := (reconcile_names_perm fs dest repos).length_eq
    simpa using this
  · exact Multiset.coe_eq_coe.mpr (reconcile_names_perm fs dest repos)
  · rintro n ⟨hc, hp⟩
    rcases List.mem_map.mp hc with ⟨r₁, hr₁, hn₁⟩
    rcases List.mem_map.mp hp with ⟨q, hq, hn₂⟩
    rcases (mem_reconcile_toPull fs dest repos q).mp hq with ⟨r₂, _, hw₂, rfl⟩
    have h₁ := ((mem_reconcile_toClone fs dest repos r₁).mp hr₁).2
    rw [lastComponent_repoLocalPath] at hn₂
    have hpath : repoLocalPath dest r₁ = repoLocalPath dest r₂ := by
      unfold repoLocalPath
      rw [hn₁, hn₂]
    rw [hpath] at h₁
    rw [h₁] at hw₂
    exact Bool.false_ne_true hw₂

/-- An empty destination directory: no subdirectories exist. -/
def fsEmpty : FS := ⟨[], []⟩

/-- Two remote repositories under different owners sharing the short
name "repo". -/
def repoA : Repo :=
  ⟨"alice/repo".toList, "https://h/alice/repo".toList, "git@h:alice/repo".toList⟩

/-- Second colliding repository (owner bob). -/
def repoB : Repo :=
  ⟨"bob/repo".toList, "https://h/bob/repo".toList, "git@h:bob/repo".toList⟩

/-- C3 counterexample: with two remote repos sharing the short name
"repo" and an empty local directory, the Reconciler classifies BOTH of
them (both land in to_clone); neither is dropped from reconciliation,
refuting the claim that at most one is classified. -/
theorem reconcile_collision_counterexample :
    lastComponent repoA.name = lastComponent repoB.name
    ∧ repoA.name ≠ repoB.name
    ∧ (reconcile fsEmpty "dest".toList [repoA, repoB]).1 = [repoA, repoB]
    ∧ ¬ ((reconcile fsEmpty "dest".toList [repoA, repoB]).1.length
          + (reconcile fsEmpty "dest".toList [repoA, repoB]).2.length ≤ 1) := by
  decide

/-- C3 amended: repositories sharing a short name are all classified, and
always into the same bucket (classification depends only on the short
name and the fixed directory state); the Reconciler drops neither. -/
theorem reconcile_collision_same_bucket (fs : FS) (dest : Str) (repos : List Repo)
    (r₁ r₂ : Repo) (h₁ : r₁ ∈ repos) (h₂ : r₂ ∈ repos)
    (hs : lastComponent r₁.name = lastComponent r₂.name) :
    (r₁ ∈ (reconcile fs dest repos).1 ∧ r₂ ∈ (reconcile fs dest repos).1)
    ∨ (repoLocalPath dest r₁ ∈ (reconcile fs dest repos).2
        ∧ repoLocalPath dest r₂ ∈ (reconcile fs dest repos).2) := by
  have hpath : repoLocalPath dest r₁ = repoLocalPath dest r₂ := by
    unfold repoLocalPath
    rw [hs]
  by_cases hw : isWorkingCopy fs (repoLocalPath dest r₁) = true
  · refine Or.inr ⟨?_, ?_⟩
    · exact (mem_reconcile_toPull fs dest repos _).mpr ⟨r₁, h₁, hw, rfl⟩
    · exact (mem_reconcile_toPull fs dest repos _).mpr ⟨r₂, h₂, hpath ▸ hw, rfl⟩
  · rw [Bool.not_eq_true] at hw
    refine Or.inl ⟨?_, ?_⟩
    · exact (mem_reconcile_toClone fs dest repos r₁).mpr ⟨h₁, hw⟩
    · exact (mem_reconcile_toClone fs dest repos r₂).mpr ⟨h₂, hpath ▸ hw⟩

/-- Witness for the C3 amended theorem at the concrete colliding pair. -/
theorem reconcile_collision_same_bucket_witness :
    (repoA ∈ (reconcile fsEmpty "dest".toList [repoA, repoB]).1
      ∧ repoB ∈ (reconcile fsEmpty "dest".toList [repoA, repoB]).1)
    ∨ (repoLocalPath "dest".toList repoA ∈ (reconcile fsEmpty "dest".toList [repoA, repoB]).2
      ∧ repoLocalPath "dest".toList repoB ∈ (reconcile fsEmpty "dest".toList [repoA, repoB]).2) :=
  reconcile_collision_same_bucket fsEmpty "dest".toList [repoA, repoB] repoA repoB
    (by decide) (by decide) (by decide)

/-- Models Python s.replace(".git", ""): remove every (leftmost,
non-overlapping) occurrence of ".git". -/
def removeDotGit : Str → Str
  | '.' :: 'g' :: 'i' :: 't' :: rest => removeDotGit rest
  | c :: rest => c :: removeDotGit rest
  | [] => []

/-- Outcome of one invocation of clone_repo. -/
inductive CloneOutcome
  | dryRunOk
  | skippedExists
  | cloned
  | failed
deriving DecidableEq

/-- Behaviour of one external "git clone" invocation: its exit status,
and whether the target directory exists afterwards when it failed (a
successful clone always creates the target working copy). -/
structure CloneResult where
  ok : Bool
  leavesDir : Bool
deriving DecidableEq

/-- The target path computed by clone_repo line 723:
dest joined with basename(url) with every ".git" removed. -/
def cloneTarget (url destDir : Str) : Str :=
  joinPath destDir (removeDotGit (lastComponent url))

/-- Embeds clone_repo (lines 711-738): dry-run returns success without
touching anything; an existing target directory is a success-no-op skip
without invoking git; otherwise git clone is invoked and its exit
status decides cloned/failed.  Returns the outcome, the filesystem
afterwards, and whether the external clone command was invoked.
(The use_ssh, shallow and verbose_skip parameters of the source only
change the external command line and logging, never the outcome.) -/
def clone_repo (url destDir : Str) (dryRun : Bool) (fs : FS) (res : CloneResult) :
    CloneOutcome × FS × Bool :=
  if dryRun then (CloneOutcome.dryRunOk, fs, false)
  else
    let target := cloneTarget url destDir
    if fs.isDirB target then (CloneOutcome.skippedExists, fs, false)
    else if res.ok then
      (CloneOutcome.cloned, (fs.addDir target).addDir (joinPath target dotGit), true)
    else
      (CloneOutcome.failed, if res.leavesDir then fs.addDir target else fs, true)

/-- A git clone invocation that fails and leaves no target directory. -/
def cloneFailNoDir : CloneResult := ⟨false, false⟩

/-- C4 counterexample: when the first clone attempt fails and the
external tool leaves no target directory behind, the second invocation
against the same target path fails as well — "never fails on the second
call" is false. -/
theorem clone_repo_second_call_counterexample :
    (clone_repo "https://h/a/r".toList "dest".toList false fsEmpty cloneFailNoDir).1
      = CloneOutcome.failed
    ∧ (clone_repo "https://h/a/r".toList "dest".toList false
        (clone_repo "https://h/a/r".toList "dest".toList false fsEmpty cloneFailNoDir).2.1
        cloneFailNoDir).1 = CloneOutcome.failed := by
  decide

/-- C4 amended: when the target directory already exists, clone_repo
yields the distinguishable Skipped-exists success without invoking the
external clone command and without changing the filesystem; hence
whenever the first call does not fail, a second call against the same
target path yields Skipped-exists, never Failed. -/
theorem clone_repo_skip_idempotent (url destDir : Str) (fs : FS) (r₁ r₂ : CloneResult) :
    (fs.isDirB (cloneTarget url destDir) = true →
        clone_repo url destDir false fs r₁ = (CloneOutcome.skippedExists, fs, false))
    ∧ ((clone_repo url destDir false fs r₁).1 ≠ CloneOutcome.failed →
        (clone_repo url destDir false
          (clone_repo url destDir false fs r₁).2.1 r₂).1 = CloneOutcome.skippedExists) := by
  constructor
  · intro h
    simp [clone_repo, h]
  · intro h
    by_cases hd : fs.isDirB (cloneTarget url destDir) = true
    · simp [clone_repo, hd]
    · rw [Bool.not_eq_true] at hd
      by_cases hok : r₁.ok = true
      · have hfs : (clone_repo url destDir false fs r₁).2.1
            = (fs.addDir (cloneTarget url destDir)).addDir
                (joinPath (cloneTarget url destDir) dotGit) := by
          simp [clone_repo, hd, hok]
        rw [hfs]
        have htgt : ((fs.addDir (cloneTarget url destDir)).addDir
            (joinPath (cloneTarget url destDir) dotGit)).isDirB (cloneTarget url destDir)
            = true := by
          simp [FS.isDirB, FS.addDir]
        simp [clone_repo, htgt]
      · rw [Bool.not_eq_true] at hok
        exact absurd (by simp [clone_repo, hd, hok]) h

/-- Witness for the C4 amended theorem: a successful first clone makes
the second call a Skipped-exists success. -/
theorem clone_repo_skip_idempotent_witness :
    ((fsEmpty.addDir (cloneTarget "https://h/a/r".toList "dest".toList)).isDirB
        (cloneTarget "https://h/a/r".toList "dest".toList) = true →
      clone_repo "https://h/a/r".toList "dest".toList false
          (fsEmpty.addDir (cloneTarget "https://h/a/r".toList "dest".toList)) ⟨true, true⟩
        = (CloneOutcome.skippedExists,
            fsEmpty.addDir (cloneTarget "https://h/a/r".toList "dest".toList), false))
    ∧ ((clone_repo "https://h/a/r".toList "dest".toList false
          (fsEmpty.addDir (cloneTarget "https://h/a/r".toList "dest".toList)) ⟨true, true⟩).1
        ≠ CloneOutcome.failed →
      (clone_repo "https://h/a/r".toList "dest".toList false
        (clone_repo "https://h/a/r".toList "dest".toList false
          (fsEmpty.addDir (cloneTarget "https://h/a/r".toList "dest".toList)) ⟨true, true⟩).2.1
        ⟨true, true⟩).1 = CloneOutcome.skippedExists) :=
  clone_repo_skip_idempotent "https://h/a/r".toList "dest".toList
    (fsEmpty.addDir (cloneTarget "https://h/a/r".toList "dest".toList)) ⟨true, true⟩ ⟨true, true⟩

theorem pullLoop_cons_ok (world : Str → ProcResult) (p : Str) (rest : List Str)
    (h : (pull_one p (world p)).2.1 = true) :
    pullLoop world (p :: rest)
      = ((pull_one p (world p)).1 :: (pullLoop world rest).1, (pullLoop world rest).2) := by
  simp [pullLoop, h]

theorem pullLoop_cons_fail (world : Str → ProcResult) (p : Str) (rest : List Str)
    (h : (pull_one p (world p)).2.1 = false) :
    pullLoop world (p :: rest)
      = ((pullLoop world rest).1,
          ((pull_one p (world p)).1, (pull_one p (world p)).2.2) :: (pullLoop world rest).2) := by
  simp [pullLoop, h]

theorem pullLoop_lengths (world : Str → ProcResult) (paths : List Str) :
    (pullLoop world paths).1.length + (pullLoop world paths).2.length = paths.length := by
  induction paths with
  | nil => simp [pullLoop]
  | cons p rest ih =>
    by_cases h : (pull_one p (world p)).2.1 = true
    · rw [pullLoop_cons_ok world p rest h]
      simp only [List.length_cons]
      omega
    · rw [Bool.not_eq_true] at h
      rw [pullLoop_cons_fail world p rest h]
      simp only [List.length_cons]
      omega

theorem pullLoop_mem_failed (world : Str → ProcResult) (paths : List Str) (p : Str)
    (hp : p ∈ paths) (hf : ¬ (world p).returncode = 0) :
    (lastComponent p, pullErrMsg (world p)) ∈ (pullLoop world paths).2 := by
  induction paths with
  | nil => cases hp
  | cons q rest ih =>
    rcases List.mem_cons.mp hp with rfl | hp'
    · simp [pullLoop, pull_one, hf, pullErrMsg]
    · by_cases h : (pull_one q (world q)).2.1 = true
      · rw [pullLoop_cons_ok world q rest h]
        exact ih hp'
      · rw [Bool.not_eq_true] at h
        rw [pullLoop_cons_fail world q rest h]
        exact List.mem_cons_of_mem _ (ih hp')

theorem pullLoop_mem_pulled (world : Str → ProcResult) (paths : List Str) (p : Str)
    (hp : p ∈ paths) (hok : (world p).returncode = 0) :
    lastComponent p ∈ (pullLoop world paths).1 := by
  induction paths with
  | nil => cases hp
  | cons q rest ih =>
    rcases List.mem_cons.mp hp with rfl | hp'
    · simp [pullLoop, pull_one, hok]
    · by_cases h : (pull_one q (world q)).2.1 = true
      · rw [pullLoop_cons_ok world q rest h]
        exact List.mem_cons_of_mem _ (ih hp')
      · rw [Bool.not_eq_true] at h
        rw [pullLoop_cons_fail world q rest h]
        exact ih hp'

/-- C5: a pull unit whose external process exits non-zero yields a
failure outcome whose message is the first line of the stripped stderr
(falling back to stdout, then "pull failed") truncated to 200
characters; the failure is recorded in pull_failed and no other unit is
blocked — every unit of the batch still contributes exactly one outcome
(lengths add up, and every succeeding unit appears in pulled_names). -/
theorem pull_failure_isolation (world : Str → ProcResult) (paths : List Str) (p : Str)
    (hp : p ∈ paths) (hf : ¬ (world p).returncode = 0) :
    pull_one p (world p) = (lastComponent p, false, pullErrMsg (world p))
    ∧ pullErrMsg (world p)
        = (firstLineOf (pyStrip (orElseStr (world p).stderr
            (orElseStr (world p).stdout pullFailedMsg)))).take 200
    ∧ (pullErrMsg (world p)).length ≤ 200
    ∧ (lastComponent p, pullErrMsg (world p)) ∈ (pullLoop world paths).2
    ∧ (pullLoop world paths).1.length + (pullLoop world paths).2.length = paths.length
    ∧ ∀ q ∈ paths, (world q).returncode = 0 → lastComponent q ∈ (pullLoop world paths).1 := by
  refine ⟨?_, rfl, ?_, ?_, ?_, ?_⟩
  · simp [pull_one, hf, pullErrMsg]
  · unfold pullErrMsg
    rw [List.length_take]
    exact Nat.min_le_left _ _
  · exact pullLoop_mem_failed world paths p hp hf
  · exact pullLoop_lengths world paths
  · intro q hq hqok
    exact pullLoop_mem_pulled world paths q hq hqok

/-- The external world of the failure-isolation scenario: three pull
units, the second fails with stderr "conflict". -/
def conflictWorld : Str → ProcResult := fun p =>
  if p = "d/r2".toList then ⟨1, [], "conflict".toList⟩ else ⟨0, [], []⟩

/-- The three paths of the failure-isolation scenario. -/
def threePaths : List Str := ["d/r1".toList, "d/r2".toList, "d/r3".toList]

/-- Witness for C5: units 1 and 3 run to completion and are pulled,
unit 2 fails with message "conflict". -/
theorem pull_failure_isolation_witness :
    (pullLoop conflictWorld threePaths
      = (["r1".toList, "r3".toList], [("r2".toList, "conflict".toList)]))
    ∧ (pull_one "d/r2".toList (conflictWorld "d/r2".toList)
        = (lastComponent "d/r2".toList, false, pullErrMsg (conflictWorld "d/r2".toList))
      ∧ pullErrMsg (conflictWorld "d/r2".toList)
          = (firstLineOf (pyStrip (orElseStr (conflictWorld "d/r2".toList).stderr
              (orElseStr (conflictWorld "d/r2".toList).stdout pullFailedMsg)))).take 200
      ∧ (pullErrMsg (conflictWorld "d/r2".toList)).length ≤ 200
      ∧ (lastComponent "d/r2".toList, pullErrMsg (conflictWorld "d/r2".toList))
          ∈ (pullLoop conflictWorld threePaths).2
      ∧ (pullLoop conflictWorld threePaths).1.length
          + (pullLoop conflictWorld threePaths).2.length = threePaths.length
      ∧ ∀ q ∈ threePaths, (conflictWorld q).returncode = 0
          → lastComponent q ∈ (pullLoop conflictWorld threePaths).1) :=
  ⟨by decide,
    pull_failure_isolation conflictWorld threePaths "d/r2".toList (by decide) (by decide)⟩

theorem pull_one_eq_of_ok (p : Str) (r : ProcResult) (h : (pull_one p r).2.1 = true) :
    pull_one p r = (lastComponent p, true, ([] : Str)) := by
  by_cases hr : r.returncode = 0
  · simp [pull_one, hr]
  · simp [pull_one, hr] at h

theorem pull_one_eq_of_fail (p : Str) (r : ProcResult) (h : (pull_one p r).2.1 = false) :
    pull_one p r = (lastComponent p, false, pullErrMsg r) := by
  by_cases hr : r.returncode = 0
  · simp [pull_one, hr] at h
  · simp [pull_one, hr, pullErrMsg]

/-- The multiset of per-repository (name, success, error) outcomes
reconstructed from the pulled_names / pull_failed accumulators of the
executor loop. -/
def loopOutcomes (res : List Str × List (Str × Str)) : Multiset (Str × Bool × Str) :=
  (↑(res.1.map (fun n => (n, true, ([] : Str)))) : Multiset (Str × Bool × Str))
  + (↑(res.2.map (fun ne => (ne.1, false, ne.2))) : Multiset (Str × Bool × Str))

theorem loopOutcomes_pullLoop (world : Str → ProcResult) (paths : List Str) :
    loopOutcomes (pullLoop world paths)
      = ↑(paths.map (fun p => pull_one p (world p))) := by
  induction paths with
  | nil => simp [pullLoop, loopOutcomes]
  | cons p rest ih =>
    by_cases h : (pull_one p (world p)).2.1 = true
    · rw [pullLoop_cons_ok world p rest h]
      have hone := pull_one_eq_of_ok p (world p) h
      rw [List.map_cons, hone]
      unfold loopOutcomes at ih ⊢
      rw [List.map_cons, ← Multiset.cons_coe, ← Multiset.cons_coe, Multiset.cons_add, ih]
    · rw [Bool.not_eq_true] at h
      rw [pullLoop_cons_fail world p rest h]
      have hone := pull_one_eq_of_fail p (world p) h
      rw [List.map_cons, hone]
      unfold loopOutcomes at ih ⊢
      rw [List.map_cons, ← Multiset.cons_coe, ← Multiset.cons_coe, Multiset.add_cons, ih]

/-- C9: with fixed per-unit external results, collecting the outcomes in
any completion order (a permutation of the input list, as produced by
the thread-pool branch) yields the same multiset of per-repository
(name, success, error) outcomes as the sequential branch; only the
order may differ. -/
theorem executor_parallel_refines_sequential (world : Str → ProcResult)
    (paths order : List Str) (h : order.Perm paths) :
    loopOutcomes (pullLoop world order) = loopOutcomes (pullLoop world paths) := by
  rw [loopOutcomes_pullLoop, loopOutcomes_pullLoop]
  exact Multiset.coe_eq_coe.mpr (h.map _)

/-- Witness for C9 at a concrete completion order (units finishing in
reverse order) with one failing unit. -/
theorem executor_parallel_refines_sequential_witness :
    (["d/r2".toList, "d/r1".toList].Perm ["d/r1".toList, "d/r2".toList])
    ∧ loopOutcomes (pullLoop conflictWorld ["d/r2".toList, "d/r1".toList])
      = loopOutcomes (pullLoop conflictWorld ["d/r1".toList, "d/r2".toList]) :=
  ⟨by decide,
    executor_parallel_refines_sequential conflictWorld
      ["d/r1".toList, "d/r2".toList] ["d/r2".toList, "d/r1".toList] (by decide)⟩

/-- Does the string contain two consecutive hyphens (Python's
'\x7b\x7d'-free test `"--" in safe`)? -/
def hasDD : Str → Bool
  | a :: b :: t => (a = '-' && b = '-') || hasDD (b :: t)
  | _ => false

/-- One pass of Python s.replace("--", "-"): replace each leftmost
non-overlapping occurrence of "--" by "-". -/
def collapseOnce : Str → Str
  | [] => []
  | [c] => [c]
  | a :: b :: t =>
    if a = '-' ∧ b = '-' then '-' :: collapseOnce t else a :: collapseOnce (b :: t)

theorem collapseOnce_length_le : ∀ s : Str, (collapseOnce s).length ≤ s.length
  | [] => by simp [collapseOnce]
  | [c] => by simp [collapseOnce]
  | a :: b :: t => by
    by_cases h : a = '-' ∧ b = '-'
    · rw [collapseOnce, if_pos h]
      have := collapseOnce_length_le t
      simp only [List.length_cons]
      omega
    · rw [collapseOnce, if_neg h]
      have := collapseOnce_length_le (b :: t)
      simp only [List.length_cons] at this ⊢
      omega

theorem collapseOnce_length_lt : ∀ s : Str, hasDD s = true → (collapseOnce s).length < s.length
  | [], h => by simp [hasDD] at h
  | [c], h => by simp [hasDD] at h
  | a :: b :: t, h => by
    by_cases hab : a = '-' ∧ b = '-'
    · rw [collapseOnce, if_pos hab]
      have := collapseOnce_length_le t
      simp only [List.length_cons]
      omega
    · have hDD : hasDD (b :: t) = true := by
        simp only [hasDD, Bool.or_eq_true, Bool.and_eq_true, decide_eq_true_eq] at h
        rcases h with ⟨h1, h2⟩ | h2
        · exact absurd ⟨h1, h2⟩ hab
        · exact h2
      rw [collapseOnce, if_neg hab]
      have := collapseOnce_length_lt (b :: t) hDD
      simp only [List.length_cons] at this ⊢
      omega

/-- The body of the while-loop of get_branch_device_suffix lines
577-578, with an explicit iteration bound: each replacement pass
strictly shortens the string, so the string length bounds the number
of iterations of the source's unbounded loop. -/
def collapseLoop : Nat → Str → Str
  | 0, s => s
  | fuel + 1, s => if hasDD s = true then collapseLoop fuel (collapseOnce s) else s

/-- The while-loop of get_branch_device_suffix lines 577-578:
repeat replace("--", "-") until no "--" remains. -/
def collapseDashes (s : Str) : Str := collapseLoop s.length s

theorem collapseLoop_noDD :
    ∀ (fuel : Nat) (s : Str), s.length ≤ fuel → hasDD (collapseLoop fuel s) = false
  | 0, s, h => by
    have : s = [] := List.eq_nil_of_length_eq_zero (Nat.le_zero.mp h)
    simp [this, collapseLoop, hasDD]
  | fuel + 1, s, h => by
    by_cases hd : hasDD s = true
    · rw [collapseLoop, if_pos hd]
      refine collapseLoop_noDD fuel (collapseOnce s) ?_
      have := collapseOnce_length_lt s hd
      omega
    · rw [collapseLoop, if_neg hd]
      simpa using hd

theorem collapseDashes_noDD (s : Str) : hasDD (collapseDashes s) = false :=
  collapseLoop_noDD s.length s le_rfl

theorem mem_collapseOnce : ∀ (s : Str) (c : Char), c ∈ collapseOnce s → c ∈ s
  | [], c, h => by simp [collapseOnce] at h
  | [a], c, h => by simpa [collapseOnce] using h
  | a :: b :: t, c, h => by
    by_cases hab : a = '-' ∧ b = '-'
    · rw [collapseOnce, if_pos hab] at h
      rcases List.mem_cons.mp h with rfl | h'
      · simp [hab.1]
      · exact List.mem_cons_of_mem _ (List.mem_cons_of_mem _ (mem_collapseOnce t c h'))
    · rw [collapseOnce, if_neg hab] at h
      rcases List.mem_cons.mp h with rfl | h'
      · simp
      · exact List.mem_cons_of_mem _ (mem_collapseOnce (b :: t) c h')

theorem mem_collapseLoop :
    ∀ (fuel : Nat) (s : Str) (c : Char), c ∈ collapseLoop fuel s → c ∈ s
  | 0, s, c, h => by simpa [collapseLoop] using h
  | fuel + 1, s, c, h => by
    by_cases hd : hasDD s = true
    · rw [collapseLoop, if_pos hd] at h
      exact mem_collapseOnce s c (mem_collapseLoop fuel _ c h)
    · rwa [collapseLoop, if_neg hd] at h

theorem mem_collapseDashes (s : Str) (c : Char) (hc : c ∈ collapseDashes s) : c ∈ s :=
  mem_collapseLoop s.length s c hc

/-- Models the right half of Python s.strip("-"). -/
def dropDashEnd (s : Str) : Str :=
  (s.reverse.dropWhile (fun c => c = '-')).reverse

/-- Models Python s.strip("-") of line 579. -/
def stripDashes (s : Str) : Str :=
  dropDashEnd (s.dropWhile (fun c => c = '-'))

/-- Lines 575-579 of get_branch_device_suffix: lowercase the stripped
hostname ("unknown" if empty), map non-alphanumerics to "-", collapse
runs of hyphens, strip hyphens from the ends. -/
def deviceSafeStr (node : Str) : Str :=
  stripDashes (collapseDashes
    (((pyStrip (orElseStr node "unknown".toList)).map Char.toLower).map
      (fun ch => if ch.isAlphanum then ch else '-')))

/-- Embeds get_branch_device_suffix (lines 573-582): the sanitised
hostname, with fallback "unknown" if everything was stripped,
truncated to 24 characters. -/
def get_branch_device_suffix (node : Str) : Str :=
  (if deviceSafeStr node = [] then "unknown".toList else deviceSafeStr node).take 24

/-- The branch name built by main line 1176:
feature/<date>-<device suffix>.  The suffix is always appended. -/
def mainBranchName (dateStr node : Str) : Str :=
  "feature/".toList ++ dateStr ++ '-' :: get_branch_device_suffix node

example : get_branch_device_suffix [] = "unknown".toList := by decide
example : get_branch_device_suffix "dev-1".toList = "dev-1".toList := by decide
example : get_branch_device_suffix "My Mac!! Pro".toList = "my-mac-pro".toList := by decide
example : get_branch_device_suffix "---".toList = "unknown".toList := by decide
example : mainBranchName "2024-03-07".toList "dev-1".toList
    = "feature/2024-03-07-dev-1".toList := by decide

theorem dropWhile_deco (p : Char → Bool) (l : Str) :
    ∃ u, l = u ++ l.dropWhile p ∧ ∀ c ∈ u, p c = true := by
  induction l with
  | nil => exact ⟨[], by simp [List.dropWhile]⟩
  | cons a t ih =>
    by_cases hp : p a = true
    · obtain ⟨u, hu, hpu⟩ := ih
      refine ⟨a :: u, ?_, ?_⟩
      · rw [List.dropWhile_cons, if_pos hp, List.cons_append, ← hu]
      · intro c hc
        rcases List.mem_cons.mp hc with rfl | hc'
        · exact hp
        · exact hpu c hc'
    · rw [Bool.not_eq_true] at hp
      exact ⟨[], by simp [List.dropWhile_cons, hp]⟩

theorem dropWhile_head_not (p : Char → Bool) (l : Str) (c : Char) (t : Str)
    (h : l.dropWhile p = c :: t) : p c = false := by
  induction l with
  | nil => simp [List.dropWhile] at h
  | cons a l' ih =>
    rw [List.dropWhile_cons] at h
    by_cases hp : p a = true
    · rw [if_pos hp] at h
      exact ih h
    · rw [if_neg hp] at h
      injection h with h1 _
      subst h1
      rwa [Bool.not_eq_true] at hp

theorem dropDashEnd_deco (l : Str) :
    ∃ r, l = dropDashEnd l ++ r ∧ ∀ c ∈ r, c = '-' := by
  obtain ⟨u, hu, hpu⟩ := dropWhile_deco (fun c => c = '-') l.reverse
  refine ⟨u.reverse, ?_, ?_⟩
  · have h2 : l.reverse.reverse = (u ++ l.reverse.dropWhile (fun c => c = '-')).reverse := by
      rw [← hu]
    rw [List.reverse_reverse, List.reverse_append] at h2
    exact h2
  · intro c hc
    have := hpu c (List.mem_reverse.mp hc)
    simpa using this

theorem hasDD_cons_of (c : Char) (l : Str) (h : hasDD l = true) : hasDD (c :: l) = true := by
  cases l with
  | nil => simp [hasDD] at h
  | cons b t => simp [hasDD, h]

theorem hasDD_append_right : ∀ (v w : Str), hasDD v = true → hasDD (v ++ w) = true
  | [], _, h => by simp [hasDD] at h
  | [c], _, h => by simp [hasDD] at h
  | a :: b :: t, w, h => by
    simp only [hasDD, Bool.or_eq_true, Bool.and_eq_true, decide_eq_true_eq] at h
    rcases h with ⟨h1, h2⟩ | h2
    · subst h1; subst h2
      simp [hasDD]
    · have := hasDD_append_right (b :: t) w h2
      simp only [List.cons_append] at this ⊢
      exact hasDD_cons_of a _ this

theorem hasDD_append_left (u v : Str) (h : hasDD v = true) : hasDD (u ++ v) = true := by
  induction u with
  | nil => simpa using h
  | cons c t ih =>
    rw [List.cons_append]
    exact hasDD_cons_of c _ ih

theorem hasDD_take_false (l : Str) (n : Nat) (h : hasDD l = false) :
    hasDD (l.take n) = false := by
  by_contra hb
  rw [Bool.not_eq_false] at hb
  have := hasDD_append_right (l.take n) (l.drop n) hb
  rw [List.take_append_drop] at this
  rw [h] at this
  exact Bool.false_ne_true this

theorem stripDashes_noDD (l : Str) (h : hasDD l = false) :
    hasDD (stripDashes l) = false := by
  by_contra hb
  rw [Bool.not_eq_false] at hb
  obtain ⟨u, hu, _⟩ := dropWhile_deco (fun c => c = '-') l
  obtain ⟨r, hr, _⟩ := dropDashEnd_deco (l.dropWhile (fun c => c = '-'))
  have h1 : hasDD (l.dropWhile (fun c => c = '-')) = true := by
    rw [hr]
    exact hasDD_append_right _ r hb
  have h2 : hasDD l = true := by
    rw [hu]
    exact hasDD_append_left u _ h1
  rw [h] at h2
  exact Bool.false_ne_true h2

theorem mem_stripDashes (l : Str) (c : Char) (hc : c ∈ stripDashes l) : c ∈ l := by
  obtain ⟨u, hu, _⟩ := dropWhile_deco (fun c => c = '-') l
  obtain ⟨r, hr, _⟩ := dropDashEnd_deco (l.dropWhile (fun c => c = '-'))
  have hc' : c ∈ dropDashEnd (l.dropWhile (fun c => c = '-')) := hc
  rw [hu, hr]
  exact List.mem_append_right u (List.mem_append_left r hc')

theorem stripDashes_head_not (l : Str) (c : Char) (t : Str)
    (h : stripDashes l = c :: t) : c ≠ '-' := by
  obtain ⟨r, hr, _⟩ := dropDashEnd_deco (l.dropWhile (fun c => c = '-'))
  unfold stripDashes at h
  rw [h] at hr
  have := dropWhile_head_not (fun c => c = '-') l c (t ++ r) (by rw [hr, List.cons_append])
  simpa using this

theorem toNat_bounds_of_isUpper (c : Char) (h : c.isUpper = true) :
    65 ≤ c.toNat ∧ c.toNat ≤ 90 := by
  unfold Char.isUpper at h
  rw [Bool.and_eq_true] at h
  obtain ⟨h1, h2⟩ := h
  rw [decide_eq_true_eq] at h1 h2
  exact ⟨UInt32.le_toNat_of_le (by decide) h1, UInt32.toNat_le_of_le (by decide) h2⟩

theorem toLower_isUpper_false (c : Char) : (Char.toLower c).isUpper = false := by
  unfold Char.toLower
  by_cases h : c.toNat ≥ 65 ∧ c.toNat ≤ 90
  · rw [if_pos h]
    have hall : ∀ n ∈ Finset.Icc (97 : Nat) 122, (Char.ofNat n).isUpper = false := by decide
    exact hall _ (Finset.mem_Icc.mpr (by omega))
  · rw [if_neg h]
    by_contra hb
    rw [Bool.not_eq_false] at hb
    exact h ⟨(toNat_bounds_of_isUpper c hb).1, (toNat_bounds_of_isUpper c hb).2⟩

theorem deviceSafeStr_noDD (node : Str) : hasDD (deviceSafeStr node) = false :=
  stripDashes_noDD _ (collapseDashes_noDD _)

theorem deviceSafeStr_chars (node : Str) (c : Char) (hc : c ∈ deviceSafeStr node) :
    c = '-' ∨ (c.isAlphanum = true ∧ c.isUpper = false) := by
  have h1 := mem_collapseDashes _ c (mem_stripDashes _ c hc)
  rcases List.mem_map.mp h1 with ⟨b, hb, hbc⟩
  by_cases ha : b.isAlphanum = true
  · right
    rw [if_pos ha] at hbc
    subst hbc
    refine ⟨ha, ?_⟩
    rcases List.mem_map.mp hb with ⟨a, _, rfl⟩
    exact toLower_isUpper_false a
  · left
    rw [if_neg ha] at hbc
    exact hbc.symm

theorem mem_take_sub (l : Str) (n : Nat) (x : Char) (hx : x ∈ l.take n) : x ∈ l := by
  rw [← List.take_append_drop n l]
  exact List.mem_append_left _ hx

theorem get_branch_device_suffix_ne_nil (node : Str) :
    get_branch_device_suffix node ≠ [] := by
  unfold get_branch_device_suffix
  by_cases h : deviceSafeStr node = []
  · rw [if_pos h]
    decide
  · rw [if_neg h]
    cases hd : deviceSafeStr node with
    | nil => exact absurd hd h
    | cons c t =>
      intro hn
      have hlen := congrArg List.length hn
      rw [List.length_take, List.length_cons] at hlen
      simp at hlen

/-- C10: for every hostname string (including empty and fully
non-alphanumeric ones), get_branch_device_suffix returns a non-empty
string of at most 24 characters made only of hyphens and
non-uppercase alphanumerics, that does not begin with a hyphen and
contains no two consecutive hyphens. -/
theorem device_suffix_wellformed (node : Str) :
    get_branch_device_suffix node ≠ []
    ∧ (get_branch_device_suffix node).length ≤ 24
    ∧ (∀ c ∈ get_branch_device_suffix node,
        c = '-' ∨ (c.isAlphanum = true ∧ c.isUpper = false))
    ∧ (get_branch_device_suffix node).head? ≠ some '-'
    ∧ hasDD (get_branch_device_suffix node) = false := by
  refine ⟨get_branch_device_suffix_ne_nil node, ?_, ?_, ?_, ?_⟩
  · unfold get_branch_device_suffix
    rw [List.length_take]
    exact Nat.min_le_left _ _
  · unfold get_branch_device_suffix
    by_cases h : deviceSafeStr node = []
    · rw [if_pos h]
      decide
    · rw [if_neg h]
      intro x hx
      exact deviceSafeStr_chars node x (mem_take_sub _ 24 x hx)
  · unfold get_branch_device_suffix
    by_cases h : deviceSafeStr node = []
    · rw [if_pos h]
      decide
    · rw [if_neg h]
      cases hd : deviceSafeStr node with
      | nil => exact absurd hd h
      | cons c t =>
        have hc := stripDashes_head_not _ c t hd
        have ht : (c :: t).take 24 = c :: t.take 23 := rfl
        rw [ht]
        simpa using hc
  · unfold get_branch_device_suffix
    by_cases h : deviceSafeStr node = []
    · rw [if_pos h]
      decide
    · rw [if_neg h]
      exact hasDD_take_false _ 24 (deviceSafeStr_noDD node)

/-- C6 counterexample: with an empty hostname (the case where no device
suffix is available), the generated branch is
feature/2024-03-07-unknown, not the suffix-free feature/2024-03-07
predicted by the claim. -/
theorem branch_name_counterexample :
    mainBranchName "2024-03-07".toList [] = "feature/2024-03-07-unknown".toList
    ∧ mainBranchName "2024-03-07".toList [] ≠ "feature/2024-03-07".toList := by
  decide

/-- C6 amended: the generated branch name is always
feature/<date>-<suffix> with a non-empty device suffix derived from the
hostname ("unknown" fallback); for date 2024-03-07 with hostname dev-1
it is exactly feature/2024-03-07-dev-1; no input yields the suffix-free
form feature/<date>. -/
theorem branch_name_amended (dateStr node : Str) :
    mainBranchName dateStr node
      = "feature/".toList ++ dateStr ++ '-' :: get_branch_device_suffix node
    ∧ get_branch_device_suffix node ≠ []
    ∧ mainBranchName dateStr node ≠ "feature/".toList ++ dateStr
    ∧ mainBranchName "2024-03-07".toList "dev-1".toList
        = "feature/2024-03-07-dev-1".toList := by
  refine ⟨rfl, get_branch_device_suffix_ne_nil node, ?_, by decide⟩
  intro h
  have hlen := congrArg List.length h
  simp only [mainBranchName, List.length_append, List.length_cons] at hlen
  omega

/-- Per-repository result of _commit_and_pr_one:
(repo_name, committed, pr_url, error). -/
structure CommitPrResult where
  name : Str
  committed : Bool
  prUrl : Option Str
  error : Option Str
deriving DecidableEq

/-- The external commands a publisher run can invoke, in order. -/
inductive GitStep
  | statusQuery
  | revParseVerify
  | checkoutExisting
  | checkoutNew
  | addAll
  | statusRecheck
  | commitStep
  | pushStep
  | prCreate
deriving DecidableEq

/-- External-tool results for the steps of one publisher run. -/
structure PublishWorld where
  statusRes : ProcResult
  revParseRes : ProcResult
  checkoutRes : ProcResult
  checkoutNewRes : ProcResult
  addRes : ProcResult
  statusRes2 : ProcResult
  commitRes : ProcResult
  pushRes : ProcResult
  prRes : ProcResult
deriving DecidableEq

/-- Message of the CalledProcessError raised by run_cmd(check=True):
(e.stderr or e.stdout or str(e))[:200]; the str(e) fallback text is
modelled by a fixed placeholder. -/
def cpeMsg (r : ProcResult) : Str :=
  (orElseStr r.stderr (orElseStr r.stdout "CalledProcessError".toList)).take 200

/-- The phrase tested against gh stderr at line 915. -/
def alreadyExistsStr : Str := "already exists".toList

/-- Does the second string start with the first? -/
def startsWithStr : Str → Str → Bool
  | [], _ => true
  | _ :: _, [] => false
  | p :: ps, c :: cs => p = c && startsWithStr ps cs

/-- Python's substring test `pat in s`. -/
def containsSub (pat : Str) : Str → Bool
  | [] => startsWithStr pat []
  | c :: rest => startsWithStr pat (c :: rest) || containsSub pat rest

/-- Models Python str.lower (ASCII model). -/
def pyLower (s : Str) : Str := s.map Char.toLower

/-- Embeds _commit_and_pr_one (lines 867-921): clean tree returns
no-changes immediately; otherwise checkout (existing or new branch),
add, recheck (no net change returns no-changes), commit, push (each
check=True failure aborts with the captured message), then gh pr
create, whose non-zero exit is fatal only when its stderr does not
contain "already exists".  Also returns the trace of invoked steps.
The dateStr and branch arguments only feed command lines and messages
in the source and do not influence the outcome. -/
def commit_and_pr_one (repoPath dateStr branch : Str) (w : PublishWorld) :
    CommitPrResult × List GitStep :=
  let name := lastComponent repoPath
  if pyStrip w.statusRes.stdout = [] then
    (⟨name, false, none, none⟩, [GitStep.statusQuery])
  else
    let branchExists := w.revParseRes.returncode = 0
    let co := if branchExists then w.checkoutRes else w.checkoutNewRes
    let steps0 := [GitStep.statusQuery, GitStep.revParseVerify,
      if branchExists then GitStep.checkoutExisting else GitStep.checkoutNew]
    if co.returncode ≠ 0 then
      (⟨name, false, none, some (cpeMsg co)⟩, steps0)
    else if w.addRes.returncode ≠ 0 then
      (⟨name, false, none, some (cpeMsg w.addRes)⟩, steps0 ++ [GitStep.addAll])
    else if pyStrip w.statusRes2.stdout = [] then
      (⟨name, false, none, none⟩, steps0 ++ [GitStep.addAll, GitStep.statusRecheck])
    else if w.commitRes.returncode ≠ 0 then
      (⟨name, false, none, some (cpeMsg w.commitRes)⟩,
        steps0 ++ [GitStep.addAll, GitStep.statusRecheck, GitStep.commitStep])
    else if w.pushRes.returncode ≠ 0 then
      (⟨name, false, none, some (cpeMsg w.pushRes)⟩,
        steps0 ++ [GitStep.addAll, GitStep.statusRecheck, GitStep.commitStep,
          GitStep.pushStep])
    else
      let prUrl := if w.prRes.returncode = 0 then some (pyStrip w.prRes.stdout) else none
      let allSteps := steps0 ++ [GitStep.addAll, GitStep.statusRecheck,
        GitStep.commitStep, GitStep.pushStep, GitStep.prCreate]
      if w.prRes.returncode ≠ 0
          ∧ containsSub alreadyExistsStr (pyLower w.prRes.stderr) = false then
        (⟨name, true, prUrl,
          some ((orElseStr w.prRes.stderr
            (orElseStr w.prRes.stdout "PR create failed".toList)).take 200)⟩, allSteps)
      else
        (⟨name, true, prUrl, none⟩, allSteps)

/-- Python string comparison (lexicographic by code point), as a Bool. -/
def lexLe : Str → Str → Bool
  | [], _ => true
  | _ :: _, [] => false
  | a :: at_, b :: bt => if a = b then lexLe at_ bt else decide (a < b)

/-- Insertion step of a stable ascending sort. -/
def insertLe (le : Str → Str → Bool) (a : Str) : List Str → List Str
  | [] => [a]
  | b :: bs => if le a b then a :: b :: bs else b :: insertLe le a bs

/-- Stable ascending sort, modelling Python sorted(). -/
def sortLe (le : Str → Str → Bool) : List Str → List Str
  | [] => []
  | a :: rest => insertLe le a (sortLe le rest)

/-- The loop body of commit_and_push_changes (lines 934-948): skip
non-working-copies; an error outcome goes only to the errors list
(the committed flag of the unit result is not consulted there);
otherwise a committed outcome extends committed (and prs when a pr_url
is present). -/
def cappLoop (dest dateStr branch : Str) (fs : FS) (pw : Str → PublishWorld) :
    List Str → List Str × List (Str × Str) × List (Str × Str)
  | [] => ([], [], [])
  | n :: rest =>
    let acc := cappLoop dest dateStr branch fs pw rest
    let path := joinPath dest n
    if isWorkingCopy fs path = false then acc
    else
      let res := (commit_and_pr_one path dateStr branch (pw path)).1
      match res.error with
      | some e => (acc.1, acc.2.1, (res.name, e) :: acc.2.2)
      | none =>
        if res.committed then
          (res.name :: acc.1,
            (match res.prUrl with
              | some u => (res.name, u) :: acc.2.1
              | none => acc.2.1),
            acc.2.2)
        else acc

/-- Embeds commit_and_push_changes (lines 924-949): iterate the sorted
repo names, returning (committed_names, prs, errors). -/
def commit_and_push_changes (dest : Str) (repoNames : List Str) (dateStr branch : Str)
    (fs : FS) (pw : Str → PublishWorld) :
    List Str × List (Str × Str) × List (Str × Str) :=
  cappLoop dest dateStr branch fs pw (sortLe lexLe repoNames)

/-- C7: a working copy whose status query reports a clean tree yields
the no-changes outcome (committed=false, no error, NoChanges) with only
the status query performed — no branch/stage/commit/push/review step
runs; and when the tree is dirty but staging produces no net change,
the outcome is likewise no-changes, never Failed.  A second same-day
run after a successful publish has a clean tree, so it yields
no-changes by the first part. -/
theorem publisher_no_changes (repoPath dateStr branch : Str) (w : PublishWorld) :
    (pyStrip w.statusRes.stdout = [] →
      commit_and_pr_one repoPath dateStr branch w
        = (⟨lastComponent repoPath, false, none, none⟩, [GitStep.statusQuery]))
    ∧ (pyStrip w.statusRes.stdout ≠ [] →
      (if w.revParseRes.returncode = 0 then w.checkoutRes
        else w.checkoutNewRes).returncode = 0 →
      w.addRes.returncode = 0 →
      pyStrip w.statusRes2.stdout = [] →
      (commit_and_pr_one repoPath dateStr branch w).1
        = ⟨lastComponent repoPath, false, none, none⟩) := by
  constructor
  · intro h
    simp [commit_and_pr_one, h]
  · intro h1 h2 h3 h4
    simp [commit_and_pr_one, h1, h2, h3, h4]

/-- A successful external invocation with empty output. -/
def procOk : ProcResult := ⟨0, [], []⟩

/-- A dirty status query result. -/
def procDirty : ProcResult := ⟨0, " M file.txt".toList, []⟩

/-- A publisher world with a clean working tree. -/
def cleanWorld : PublishWorld :=
  ⟨procOk, procOk, procOk, procOk, procOk, procOk, procOk, procOk, procOk⟩

/-- A publisher world with a dirty tree whose staging yields no net
change (everything staged was ignored). -/
def dirtyIgnoredWorld : PublishWorld :=
  ⟨procDirty, ⟨1, [], []⟩, procOk, procOk, procOk, procOk, procOk, procOk, procOk⟩

/-- Witness for C7 at a clean world and at a dirty-but-ignored world. -/
theorem publisher_no_changes_witness :
    commit_and_pr_one "d/r".toList "2024-03-07".toList "b".toList cleanWorld
      = (⟨lastComponent "d/r".toList, false, none, none⟩, [GitStep.statusQuery])
    ∧ (commit_and_pr_one "d/r".toList "2024-03-07".toList "b".toList dirtyIgnoredWorld).1
      = ⟨lastComponent "d/r".toList, false, none, none⟩ :=
  ⟨(publisher_no_changes "d/r".toList "2024-03-07".toList "b".toList cleanWorld).1
      (by decide),
    (publisher_no_changes "d/r".toList "2024-03-07".toList "b".toList dirtyIgnoredWorld).2
      (by decide) (by decide) (by decide) (by decide)⟩

theorem cappLoop_single_error (dest dateStr branch : Str) (fs : FS)
    (pw : Str → PublishWorld) (n e : Str)
    (hwc : isWorkingCopy fs (joinPath dest n) = true)
    (he : (commit_and_pr_one (joinPath dest n) dateStr branch
        (pw (joinPath dest n))).1.error = some e) :
    cappLoop dest dateStr branch fs pw [n]
      = ([], [],
          [((commit_and_pr_one (joinPath dest n) dateStr branch
              (pw (joinPath dest n))).1.name, e)]) := by
  simp only [cappLoop]
  rw [hwc, he]
  simp

/-- C8 amended: when the review-request step is reached and the
external tool exits non-zero, an "already exists" stderr is treated as
success without a new review URL (not Failed); any other failure
produces a unit-level outcome that records committed=true together
with the error, but the aggregation of commit_and_push_changes then
reports the repository only in the errors list and not among the
committed names, so the reported results do not distinguish
"committed but could not request review" from "did not even commit". -/
theorem pr_failure_reporting (dest n dateStr branch : Str) (fs : FS)
    (pw : Str → PublishWorld)
    (h1 : pyStrip (pw (joinPath dest n)).statusRes.stdout ≠ [])
    (h2 : (if (pw (joinPath dest n)).revParseRes.returncode = 0
            then (pw (joinPath dest n)).checkoutRes
            else (pw (joinPath dest n)).checkoutNewRes).returncode = 0)
    (h3 : (pw (joinPath dest n)).addRes.returncode = 0)
    (h4 : pyStrip (pw (joinPath dest n)).statusRes2.stdout ≠ [])
    (h5 : (pw (joinPath dest n)).commitRes.returncode = 0)
    (h6 : (pw (joinPath dest n)).pushRes.returncode = 0)
    (h7 : ¬ (pw (joinPath dest n)).prRes.returncode = 0)
    (hwc : isWorkingCopy fs (joinPath dest n) = true) :
    (containsSub alreadyExistsStr (pyLower (pw (joinPath dest n)).prRes.stderr) = true →
      (commit_and_pr_one (joinPath dest n) dateStr branch (pw (joinPath dest n))).1
        = ⟨lastComponent (joinPath dest n), true, none, none⟩)
    ∧ (containsSub alreadyExistsStr (pyLower (pw (joinPath dest n)).prRes.stderr) = false →
      (commit_and_pr_one (joinPath dest n) dateStr branch (pw (joinPath dest n))).1
        = ⟨lastComponent (joinPath dest n), true, none,
            some ((orElseStr (pw (joinPath dest n)).prRes.stderr
              (orElseStr (pw (joinPath dest n)).prRes.stdout
                "PR create failed".toList)).take 200)⟩
      ∧ commit_and_push_changes dest [n] dateStr branch fs pw
          = ([], [],
              [(lastComponent (joinPath dest n),
                (orElseStr (pw (joinPath dest n)).prRes.stderr
                  (orElseStr (pw (joinPath dest n)).prRes.stdout
                    "PR create failed".toList)).take 200)])) := by
  constructor
  · intro hc
    simp [commit_and_pr_one, h1, h2, h3, h4, h5, h6, h7, hc]
  · intro hc
    have hres : (commit_and_pr_one (joinPath dest n) dateStr branch (pw (joinPath dest n))).1
        = ⟨lastComponent (joinPath dest n), true, none,
            some ((orElseStr (pw (joinPath dest n)).prRes.stderr
              (orElseStr (pw (joinPath dest n)).prRes.stdout
                "PR create failed".toList)).take 200)⟩ := by
      simp [commit_and_pr_one, h1, h2, h3, h4, h5, h6, h7, hc]
    refine ⟨hres, ?_⟩
    have he : (commit_and_pr_one (joinPath dest n) dateStr branch
        (pw (joinPath dest n))).1.error
        = some ((orElseStr (pw (joinPath dest n)).prRes.stderr
            (orElseStr (pw (joinPath dest n)).prRes.stdout
              "PR create failed".toList)).take 200) := by
      rw [hres]
    have hagg := cappLoop_single_error dest dateStr branch fs pw n _ hwc he
    unfold commit_and_push_changes
    rw [show sortLe lexLe [n] = [n] from rfl]
    rw [hagg, hres]

/-- The destination directory containing a working copy r. -/
def fsR : FS := ⟨["d/r".toList, "d/r/.git".toList], ["r".toList]⟩

/-- World: committed and pushed fine, PR creation fails with stderr
"boom". -/
def prFailWorld : PublishWorld :=
  ⟨procDirty, ⟨1, [], []⟩, procOk, procOk, procOk, procDirty, procOk, procOk,
    ⟨1, [], "boom".toList⟩⟩

/-- World: commit itself fails with stderr "boom". -/
def commitFailWorld : PublishWorld :=
  ⟨procDirty, ⟨1, [], []⟩, procOk, procOk, procOk, procDirty,
    ⟨1, [], "boom".toList⟩, procOk, procOk⟩

/-- World: committed and pushed fine, PR creation exits non-zero with
an "already exists" stderr. -/
def prExistsWorld : PublishWorld :=
  ⟨procDirty, ⟨1, [], []⟩, procOk, procOk, procOk, procDirty, procOk, procOk,
    ⟨1, [], "a pull request already exists for branch b".toList⟩⟩

/-- C8 counterexample: a repository that committed and pushed but whose
review request failed is reported by commit_and_push_changes exactly
like a repository whose commit itself failed — identical aggregated
results — even though the unit-level outcomes differ on the committed
flag, so the commit is NOT distinguishable in the reported results. -/
theorem pr_reporting_counterexample :
    commit_and_push_changes "d".toList ["r".toList] "2024-03-07".toList "b".toList fsR
        (fun _ => prFailWorld)
      = commit_and_push_changes "d".toList ["r".toList] "2024-03-07".toList "b".toList fsR
        (fun _ => commitFailWorld)
    ∧ (commit_and_pr_one "d/r".toList "2024-03-07".toList "b".toList prFailWorld).1.committed
        = true
    ∧ (commit_and_pr_one "d/r".toList "2024-03-07".toList "b".toList
        commitFailWorld).1.committed = false := by
  decide

/-- Witness for the C8 amended theorem: the already-exists world yields
success without a URL; the boom world is reported only as an error. -/
theorem pr_failure_reporting_witness :
    (commit_and_pr_one (joinPath "d".toList "r".toList) "2024-03-07".toList "b".toList
        prExistsWorld).1
      = ⟨lastComponent (joinPath "d".toList "r".toList), true, none, none⟩
    ∧ commit_and_push_changes "d".toList ["r".toList] "2024-03-07".toList "b".toList fsR
        (fun _ => prFailWorld)
      = ([], [], [("r".toList, "boom".toList)]) := by
  constructor
  · exact (pr_failure_reporting "d".toList "r".toList "2024-03-07".toList "b".toList fsR
      (fun _ => prExistsWorld) (by decide) (by decide) (by decide) (by decide) (by decide)
      (by decide) (by decide) (by decide)).1 (by decide)
  · have h := ((pr_failure_reporting "d".toList "r".toList "2024-03-07".toList "b".toList fsR
      (fun _ => prFailWorld) (by decide) (by decide) (by decide) (by decide) (by decide)
      (by decide) (by decide) (by decide)).2 (by decide)).2
    rw [h]
    decide

/-- The external world of one sync run: filesystem state, clone
behaviour per URL, pull results per path, publisher worlds per path. -/
structure SyncWorld where
  fs : FS
  cloneRes : Str → CloneResult
  pullRes : Str → ProcResult
  publish : Str → PublishWorld

/-- The clone loop of sync_repos lines 824-826 (sequential branch):
clone each to_clone repo (dry_run is hardcoded False there), threading
the filesystem, collecting the short names of the successes. -/
def cloneLoopNames (dest : Str) (useSsh : Bool) (cloneRes : Str → CloneResult) :
    List Repo → FS → List Str × FS
  | [], fs => ([], fs)
  | r :: rest, fs =>
    let url := if useSsh then r.sshUrl else r.url
    let step := clone_repo url dest false fs (cloneRes url)
    let acc := cloneLoopNames dest useSsh cloneRes rest step.2.1
    if step.1 ≠ CloneOutcome.failed
    then (lastComponent r.name :: acc.1, acc.2)
    else acc

/-- Embeds sync_repos (lines 803-864, sequential branch): reconcile,
clone the missing repos, pull the existing ones.  Returns
(cloned, pulled, cloned_names, pulled_names, pull_failed). -/
def sync_repos (repos : List Repo) (dest : Str) (useSsh : Bool) (w : SyncWorld) :
    Nat × Nat × List Str × List Str × List (Str × Str) :=
  let parts := reconcile w.fs dest repos
  let cl := cloneLoopNames dest useSsh w.cloneRes parts.1 w.fs
  let pl := pullLoop w.pullRes parts.2
  (cl.1.length, pl.1.length, cl.1, pl.1, pl.2)

/-- Embeds find_repo_dirs (lines 172-182): the sorted list of paths
under output_dir that are git working copies. -/
def find_repo_dirs (outputDir : Str) (fs : FS) : List Str :=
  sortLe lexLe ((fs.entries.filter
    (fun nm => isWorkingCopy fs (joinPath outputDir nm))).map (joinPath outputDir))

/-- Embeds pull_all_repos (lines 255-289, sequential branch). -/
def pull_all_repos (outputDir : Str) (fs : FS) (world : Str → ProcResult)
    (onlyNames : Option (List Str)) : Nat × List Str × List (Str × Str) :=
  let repos := find_repo_dirs outputDir fs
  let repos := match onlyNames with
    | some names => repos.filter (fun p => decide (lastComponent p ∈ names))
    | none => repos
  let pl := pullLoop world repos
  (pl.1.length, pl.1, pl.2)

/-- The default clone-only loop of main lines 1204-1207: count the
clone_repo successes (True on clone, skip, or dry-run), threading the
filesystem. -/
def cloneOnlyLoop (dest : Str) (useSsh dryRun : Bool) (cloneRes : Str → CloneResult) :
    List Repo → FS → Nat × FS
  | [], fs => (0, fs)
  | r :: rest, fs =>
    let url := if useSsh then r.sshUrl else r.url
    let step := clone_repo url dest dryRun fs (cloneRes url)
    let acc := cloneOnlyLoop dest useSsh dryRun cloneRes rest step.2.1
    (if step.1 ≠ CloneOutcome.failed then acc.1 + 1 else acc.1, acc.2)

/-- The command-line switches of main that steer control flow (after
config merging), plus the resolved destination directory. -/
structure Args where
  dry_run : Bool
  list_repos : Bool
  status : Bool
  sync : Bool
  pull_only : Bool
  setup_schedule : Bool
  clear_schedule : Bool
  test_schedule_now : Bool
  ssh : Bool
  dest : Str

/-- The external world of one main run. -/
structure MainWorld where
  ghReady : Bool
  scheduleOk : Bool
  clearOk : Bool
  testOk : Bool
  listing : Except Str (List Repo)
  dateStr : Str
  node : Str
  sw : SyncWorld

/-- Embeds the exit-status logic of main (lines 952-1218, sequential
jobs=1 semantics): schedule branches return their helper's status;
status and pull-only runs return 1 on a gh/listing failure and 0
otherwise (run_status and pull_all_repos results never change it);
listing failures return 1; an empty repo list or --list returns 0; a
--sync run executes sync_repos and (unless dry-run)
commit_and_push_changes and returns 0 unconditionally (line 1197); the
default clone-only path returns 0 exactly when every clone_repo call
succeeded (line 1218). -/
def mainExit (a : Args) (w : MainWorld) : Int :=
  if a.setup_schedule then (if w.scheduleOk then 0 else 1)
  else if a.clear_schedule then (if w.clearOk then 0 else 1)
  else if a.test_schedule_now then (if w.testOk then 0 else 1)
  else if a.status then
    if w.ghReady = false then 1
    else match w.listing with
      | Except.error _ => 1
      | Except.ok _ => 0
  else if a.pull_only then
    if w.ghReady = false then 1
    else match w.listing with
      | Except.error _ => 1
      | Except.ok repos =>
        let _ := pull_all_repos a.dest w.sw.fs w.sw.pullRes
          (some (repos.map (fun r => lastComponent r.name)))
        0
  else if w.ghReady = false then 1
  else match w.listing with
    | Except.error _ => 1
    | Except.ok repos =>
      if repos = [] then 0
      else if a.list_repos then 0
      else if a.sync then
        let _ := sync_repos repos a.dest a.ssh w.sw
        let _ :=
          if a.dry_run then ([], [], [])
          else commit_and_push_changes a.dest
            ((repos.map (fun r => lastComponent r.name)).dedup) w.dateStr
            (mainBranchName w.dateStr w.node) w.sw.fs w.sw.publish
        (0 : Int)
      else
        let ok := cloneOnlyLoop a.dest a.ssh a.dry_run w.sw.cloneRes repos w.sw.fs
        if ok.1 = repos.length then 0 else 1

/-- A remote repository whose working copy exists under d. -/
def repoR : Repo := ⟨"alice/r".toList, "https://h/alice/r".toList, "git@h:alice/r".toList⟩

/-- Arguments of a plain --sync run targeting d. -/
def syncArgs : Args :=
  ⟨false, false, false, true, false, false, false, false, false, "d".toList⟩

/-- A world where listing succeeds, the local copy of r exists, and its
pull fails with "conflict". -/
def failPullWorld : MainWorld :=
  ⟨true, true, true, true, Except.ok [repoR], "2024-03-07".toList, [],
    ⟨fsR, fun _ => ⟨true, true⟩, fun _ => ⟨1, [], "conflict".toList⟩, fun _ => cleanWorld⟩⟩

/-- C1 counterexample: a sync run whose only pull fails still exits 0 —
the claim that such a run exits non-zero is false (main line 1197
returns 0 unconditionally on the sync path). -/
theorem sync_exit_counterexample :
    mainExit syncArgs failPullWorld = 0
    ∧ (sync_repos [repoR] "d".toList false failPullWorld.sw).2.2.2.2
        = [("r".toList, "conflict".toList)] := by
  decide

/-- C1 amended: once gh is ready and listing succeeded (and no
schedule or status mode is selected), a --pull-only run always exits 0
whatever the pull results; a --sync run (repo list non-empty, not
--list) likewise always exits 0 — pull failures and publish failures
never change its exit status — while the default clone-only run exits
0 exactly when every clone succeeded. -/
theorem exit_code_policy (a : Args) (w : MainWorld) (repos : List Repo)
    (hm1 : a.setup_schedule = false) (hm2 : a.clear_schedule = false)
    (hm3 : a.test_schedule_now = false) (hm4 : a.status = false)
    (hgh : w.ghReady = true) (hl : w.listing = Except.ok repos) :
    (a.pull_only = true → mainExit a w = 0)
    ∧ (a.sync = true → mainExit a w = 0)
    ∧ (a.pull_only = false → a.sync = false → repos ≠ [] → a.list_repos = false →
        (mainExit a w = 0 ↔
          (cloneOnlyLoop a.dest a.ssh a.dry_run w.sw.cloneRes repos w.sw.fs).1
            = repos.length)) := by
  refine ⟨?_, ?_, ?_⟩
  · intro hp
    simp [mainExit, hm1, hm2, hm3, hm4, hp, hgh, hl]
  · intro hs
    by_cases hp : a.pull_only = true
    · simp [mainExit, hm1, hm2, hm3, hm4, hp, hgh, hl]
    · rw [Bool.not_eq_true] at hp
      by_cases hr : repos = []
      · simp [mainExit, hm1, hm2, hm3, hm4, hp, hgh, hl, hr]
      · by_cases hlr : a.list_repos = true
        · simp [mainExit, hm1, hm2, hm3, hm4, hp, hgh, hl, hr, hlr]
        · rw [Bool.not_eq_true] at hlr
          simp [mainExit, hm1, hm2, hm3, hm4, hp, hgh, hl, hr, hlr, hs]
  · intro hm5 hs hne hlr
    by_cases hc : (cloneOnlyLoop a.dest a.ssh a.dry_run w.sw.cloneRes repos w.sw.fs).1
        = repos.length
    · simp [mainExit, hm1, hm2, hm3, hm4, hm5, hgh, hl, hne, hlr, hs, hc]
    · simp [mainExit, hm1, hm2, hm3, hm4, hm5, hgh, hl, hne, hlr, hs, hc]

/-- Arguments of a default clone-only run targeting d. -/
def cloneArgs : Args :=
  ⟨false, false, false, false, false, false, false, false, false, "d".toList⟩

/-- A world where listing succeeds, nothing exists locally, and the
external clone fails. -/
def cloneFailMW : MainWorld :=
  ⟨true, true, true, true, Except.ok [repoR], "2024-03-07".toList, [],
    ⟨fsEmpty, fun _ => cloneFailNoDir, fun _ => procOk, fun _ => cleanWorld⟩⟩

/-- Arguments of a --pull-only run targeting d. -/
def pullOnlyArgs : Args :=
  ⟨false, false, false, false, true, false, false, false, false, "d".toList⟩

/-- Witness for C1 amended: a --pull-only run over the failing-pull
world exits 0; the failing-pull sync world exits 0; the failing-clone
default run satisfies the exit-iff-all-cloned relation. -/
theorem exit_code_policy_witness :
    (pullOnlyArgs.pull_only = true → mainExit pullOnlyArgs failPullWorld = 0)
    ∧ (syncArgs.sync = true → mainExit syncArgs failPullWorld = 0)
    ∧ (cloneArgs.pull_only = false → cloneArgs.sync = false → [repoR] ≠ []
        → cloneArgs.list_repos = false →
        (mainExit cloneArgs cloneFailMW = 0 ↔
          (cloneOnlyLoop cloneArgs.dest cloneArgs.ssh cloneArgs.dry_run
            cloneFailMW.sw.cloneRes [repoR] cloneFailMW.sw.fs).1 = [repoR].length)) :=
  ⟨(exit_code_policy pullOnlyArgs failPullWorld [repoR] rfl rfl rfl rfl rfl rfl).1,
    (exit_code_policy syncArgs failPullWorld [repoR] rfl rfl rfl rfl rfl rfl).2.1,
    (exit_code_policy cloneArgs cloneFailMW [repoR] rfl rfl rfl rfl rfl rfl).2.2⟩

end GithubClonerAgent
